import Mathlib

/-!
Verification development for the Connect AI API client
(`scripts/connect_ai_client.py`).  The Python source is shallowly embedded:
pure data-reshaping functions become Lean functions, the effectful request
path becomes a function parameterised by an explicit environment and
transport, and Python's partial operations (`max` on an empty sequence,
list indexing) get an additional `Except`-valued embedding used to settle
totality properties.
-/

namespace ConnectAI

/-- Cell values carried in query-result rows.  The Python rows hold
`Any`; the formatter only ever applies `str(...)` to them, so the
embedding models the scalar value kinds the service produces. -/
inductive Value where
  | vStr (s : String)
  | vInt (n : Int)
  | vBool (b : Bool)
  | vNull
deriving DecidableEq, Repr

/-- Python `str(...)` on a cell value: strings render as themselves,
integers in decimal, booleans as `True` / `False`, `None` as `"None"`. -/
def pyStr : Value → String
  | .vStr s => s
  | .vInt n => toString n
  | .vBool true => "True"
  | .vBool false => "False"
  | .vNull => "None"

/-- Embeds the `ColumnSchema` dataclass (`connect_ai_client.py` lines 39-43). -/
structure ColumnSchema where
  columnName : String
  dataTypeName : String
  nullable : Option Bool
deriving DecidableEq, Repr

/-- Embeds the `QueryResult` dataclass (`connect_ai_client.py` lines 46-50). -/
structure QueryResult where
  schema : List ColumnSchema
  rows : List (List Value)
  affectedRows : Option Int
deriving DecidableEq, Repr

/-- Embeds the cell access `str(row[i] if i < len(row) else '')` used in
`format_query_results` (lines 212 and 230): a present value is
stringified, a missing index yields the empty string. -/
def cellStr (row : List Value) (i : Nat) : String :=
  match row.get? i with
  | some v => pyStr v
  | none => ""

/-- Python `s.ljust(w)`: pad on the right with spaces up to width `w`
(no-op when `s` is already at least that wide). -/
def ljust (s : String) (w : Nat) : String :=
  s ++ String.mk (List.replicate (w - s.length) ' ')

/-- Python `sep.join(parts)`. -/
def pyJoin (sep : String) : List String → String
  | [] => ""
  | [s] => s
  | s :: rest => s ++ sep ++ pyJoin sep rest

/-- The header list `[col.columnName for col in result.schema]`
(lines 199 and 206 and 254). -/
def headersOf (schema : List ColumnSchema) : List String :=
  schema.map (·.columnName)

/-- Embeds the column-width loop of `format_query_results` (lines 209-215):
for each `(i, header)` of `enumerate(headers)`, the width is
`max(len(header), max(len(str(row[i] if i < len(row) else '')) for row in rows))`.
This code only runs with `rows` non-empty, where Python's `max` over the
row generator equals `foldl max 0` of the corresponding list. -/
def columnWidths (headers : List String) (rows : List (List Value)) : List Nat :=
  headers.enum.map fun p =>
    max p.2.length ((rows.map fun row => (cellStr row p.1).length).foldl max 0)

/-- Embeds the header row construction (lines 218-221):
`' | '.join(header.ljust(column_widths[i]) for i, header in enumerate(headers))`.
The index into `column_widths` is always in range, so `getD` is exact. -/
def headerRow (headers : List String) (widths : List Nat) : String :=
  pyJoin " | " (headers.enum.map fun p => ljust p.2 (widths.getD p.1 0))

/-- Embeds the separator construction (line 224):
`'-+-'.join('-' * width for width in column_widths)`. -/
def separatorRow (widths : List Nat) : String :=
  pyJoin "-+-" (widths.map fun w => String.mk (List.replicate w '-'))

/-- Embeds one data row (lines 229-232):
`' | '.join(str(row[i] if i < len(row) else '').ljust(column_widths[i]) for i in range(len(headers)))`. -/
def dataRow (ncols : Nat) (widths : List Nat) (row : List Value) : String :=
  pyJoin " | " ((List.range ncols).map fun i => ljust (cellStr row i) (widths.getD i 0))

/-- Inserting one key into a Python dict under construction: an existing
key has its value replaced in place, a new key is appended. -/
def pyDictInsert (d : List (String × Value)) (k : String) (v : Value) :
    List (String × Value) :=
  if d.any (fun p => p.1 = k) then
    d.map fun p => if p.1 = k then (k, v) else p
  else
    d ++ [(k, v)]

/-- Python `dict(pairs)`: fold the pairs left to right, later values for a
repeated key overwriting earlier ones, insertion order kept. -/
def pyDict (l : List (String × Value)) : List (String × Value) :=
  l.foldl (fun d p => pyDictInsert d p.1 p.2) []

/-- The per-row record construction `dict(zip(headers, row))` shared by the
compact branch of `format_query_results` (lines 200-203) and by
`execute_query_compact` (lines 255-258). -/
def compactData (headers : List String) (rows : List (List Value)) :
    List (List (String × Value)) :=
  rows.map fun row => pyDict (headers.zip row)

/-- The pure reshaping performed by `execute_query_compact`
(lines 254-258) on a query result: this is the spec's `toCompactRecords`. -/
def compactRecords (result : QueryResult) : List (List (String × Value)) :=
  compactData (headersOf result.schema) result.rows

/-- Lowercase hexadecimal digit, as used by `json.dumps` escapes. -/
def hexDigit (n : Nat) : Char :=
  "0123456789abcdef".data.getD n '0'

/-- The `\uXXXX` escape of `json.dumps`, four lowercase hex digits. -/
def uEscape (n : Nat) : String :=
  "\\u" ++ String.mk [hexDigit (n / 4096 % 16), hexDigit (n / 256 % 16),
    hexDigit (n / 16 % 16), hexDigit (n % 16)]

/-- Escaping of one character inside a JSON string literal, following
`json.dumps` with its default `ensure_ascii=True`: the two-character
escapes for quote, backslash and common controls, `\uXXXX` for the other
controls and all non-ASCII, surrogate pairs above the BMP. -/
def jsonEscapeChar (c : Char) : String :=
  if c = '"' then "\\\""
  else if c = '\\' then "\\\\"
  else if c = '\n' then "\\n"
  else if c = '\t' then "\\t"
  else if c = '\r' then "\\r"
  else if c.toNat = 8 then "\\b"
  else if c.toNat = 12 then "\\f"
  else if c.toNat < 32 ∨ c.toNat ≥ 127 then
    if c.toNat < 65536 then uEscape c.toNat
    else
      uEscape (55296 + (c.toNat - 65536) / 1024) ++
        uEscape (56320 + (c.toNat - 65536) % 1024)
  else String.singleton c

/-- A JSON string literal for `s`, per `json.dumps`. -/
def jsonStr (s : String) : String :=
  "\"" ++ String.join (s.data.map jsonEscapeChar) ++ "\""

/-- JSON rendering of one cell value, per `json.dumps`. -/
def jsonValue : Value → String
  | .vStr s => jsonStr s
  | .vInt n => toString n
  | .vBool true => "true"
  | .vBool false => "false"
  | .vNull => "null"

/-- One record of the compact mode, rendered as `json.dumps` renders a
dict nested one level deep inside a list with `indent=2`. -/
def dumpRecord (d : List (String × Value)) : String :=
  if d.isEmpty then "  \x7b\x7d"
  else
    "  \x7b\n" ++
      pyJoin ",\n" (d.map fun e => "    " ++ jsonStr e.1 ++ ": " ++ jsonValue e.2) ++
      "\n  \x7d"

/-- Embeds `json.dumps(data, indent=2)` for the list-of-records shape the
compact branch produces (line 204). -/
def jsonDumpsRecords (data : List (List (String × Value))) : String :=
  if data.isEmpty then "[]"
  else "[\n" ++ pyJoin ",\n" (data.map dumpRecord) ++ "\n]"

/-- Embeds `format_query_results` (lines 192-235): the empty-rows sentinel
first, then the compact JSON branch, then the fixed-width text table. -/
def format_query_results (result : QueryResult) (compact : Bool) : String :=
  if result.rows.isEmpty then "No results found."
  else if compact then
    jsonDumpsRecords (compactData (headersOf result.schema) result.rows)
  else
    let headers := headersOf result.schema
    let widths := columnWidths headers result.rows
    pyJoin "\n"
      (headerRow headers widths :: separatorRow widths ::
        result.rows.map (dataRow headers.length widths))

/-- Error-propagating map, used by the checked embedding below. -/
def mapExcept (f : α → Except ε β) : List α → Except ε (List β)
  | [] => Except.ok []
  | a :: l => do
    let b ← f a
    let r ← mapExcept f l
    pure (b :: r)

/-- Python `max(...)` over a list: an error on an empty sequence,
otherwise the maximum. -/
def pyMax : List Nat → Except String Nat
  | [] => Except.error "max() arg is an empty sequence"
  | x :: xs => Except.ok (xs.foldl max x)

/-- Python list indexing `l[i]`: an error when out of range. -/
def pyIndex (l : List Nat) (i : Nat) : Except String Nat :=
  match l.get? i with
  | some x => Except.ok x
  | none => Except.error "list index out of range"

/-- The column-width loop with Python's partiality kept explicit: `max`
over the per-row generator fails on an empty sequence. -/
def columnWidthsChecked (headers : List String) (rows : List (List Value)) :
    Except String (List Nat) :=
  mapExcept (fun p => do
      let m ← pyMax (rows.map fun row => (cellStr row p.1).length)
      pure (max p.2.length m))
    headers.enum

/-- The header-row construction with the `column_widths[i]` index checked. -/
def headerRowChecked (headers : List String) (widths : List Nat) :
    Except String String := do
  let cells ← mapExcept (fun p => do
      let w ← pyIndex widths p.1
      pure (ljust p.2 w))
    headers.enum
  pure (pyJoin " | " cells)

/-- One data row with the `column_widths[i]` index checked. -/
def dataRowChecked (ncols : Nat) (widths : List Nat) (row : List Value) :
    Except String String := do
  let cells ← mapExcept (fun i => do
      let w ← pyIndex widths i
      pure (ljust (cellStr row i) w))
    (List.range ncols)
  pure (pyJoin " | " cells)

/-- `format_query_results` with every partial Python operation it contains
(`max` over a possibly empty generator, list indexing) embedded as a
fallible step, so that totality over all inputs is a theorem rather than
an artefact of the embedding. -/
def format_query_results_checked (result : QueryResult) (compact : Bool) :
    Except String String :=
  if result.rows.isEmpty then Except.ok "No results found."
  else if compact then
    Except.ok (jsonDumpsRecords (compactData (headersOf result.schema) result.rows))
  else do
    let headers := headersOf result.schema
    let widths ← columnWidthsChecked headers result.rows
    let hr ← headerRowChecked headers widths
    let rowLines ← mapExcept (dataRowChecked headers.length widths) result.rows
    pure (pyJoin "\n" (hr :: separatorRow widths :: rowLines))

/-- The base URL constant (line 16). -/
def BASE_URL : String := "https://cloud.cdata.com/api"

/-- Errors the client raises, one constructor per raise site, named after
the spec's error taxonomy: `configurationError` is the `ValueError` for
missing credentials (lines 59-61), `requestError` the API-error exception
carrying status and body (lines 88-90), `valueError` the unsupported-method
`ValueError` (line 85). -/
inductive ClientError where
  | configurationError (message : String)
  | requestError (status_code : Nat) (body : String)
  | valueError (message : String)
deriving DecidableEq, Repr

/-- Python truthiness of an optional environment string: `None` and the
empty string are falsy (`if not email or not token`, line 58). -/
def pyTruthyStr : Option String → Bool
  | none => false
  | some s => !s.isEmpty

/-- Embeds `get_auth_credentials` (lines 53-63) over an explicit
environment map standing for `os.environ`. -/
def get_auth_credentials (env : String → Option String) :
    Except ClientError (String × String) :=
  let email := env "CONNECT_AI_EMAIL"
  let token := env "CONNECT_AI_TOKEN"
  if !pyTruthyStr email || !pyTruthyStr token then
    Except.error (ClientError.configurationError
      "CONNECT_AI_EMAIL and CONNECT_AI_TOKEN environment variables must be set")
  else
    Except.ok (email.getD "", token.getD "")

/-- UTF-8 bytes of one character, as Python's `str.encode()` produces. -/
def utf8Bytes (c : Char) : List Nat :=
  let n := c.toNat
  if n < 128 then [n]
  else if n < 2048 then [192 + n / 64, 128 + n % 64]
  else if n < 65536 then [224 + n / 4096, 128 + n / 64 % 64, 128 + n % 64]
  else [240 + n / 262144, 128 + n / 4096 % 64, 128 + n / 64 % 64, 128 + n % 64]

/-- UTF-8 byte sequence of a string (`.encode()`). -/
def strBytes (s : String) : List Nat :=
  s.data.flatMap utf8Bytes

/-- The base64 alphabet. -/
def b64Char (n : Nat) : Char :=
  "ABCDEFGHIJKLMNOPQRSTUVWXYZabcdefghijklmnopqrstuvwxyz0123456789+/".data.getD n 'A'

/-- Standard base64 of a byte list, with `=` padding, as
`base64.b64encode` computes. -/
def b64encodeBytes : List Nat → String
  | [] => ""
  | [a] => String.mk [b64Char (a / 4), b64Char (a % 4 * 16), '=', '=']
  | [a, b] =>
    String.mk [b64Char (a / 4), b64Char (a % 4 * 16 + b / 16), b64Char (b % 16 * 4), '=']
  | a :: b :: c :: rest =>
    String.mk [b64Char (a / 4), b64Char (a % 4 * 16 + b / 16),
      b64Char (b % 16 * 4 + c / 64), b64Char (c % 64)] ++ b64encodeBytes rest

/-- Embeds `base64.b64encode(s.encode()).decode()` (line 71). -/
def b64encode (s : String) : String :=
  b64encodeBytes (strBytes s)

/-- An outgoing HTTP request as `make_request` assembles it; `β` is the
JSON body type. -/
structure HttpRequest (β : Type) where
  method : String
  url : String
  headers : List (String × String)
  body : Option β
deriving Repr

/-- A transport-level HTTP response; `α` is the decoded JSON payload type. -/
structure HttpResponse (α : Type) where
  status_code : Nat
  text : String
  json : α
deriving Repr

/-- The `requests` library's `response.ok`: true exactly when the status
code is below 400 (modelled from the library's documented behaviour). -/
def HttpResponse.isOk (r : HttpResponse α) : Bool :=
  r.status_code < 400

/-- Embeds `make_request` (lines 66-92) over an explicit environment and
transport: read credentials, build the Basic-Auth headers and URL,
dispatch by method, then fail on a non-ok response or return its JSON. -/
def make_request {α β : Type} (env : String → Option String)
    (transport : HttpRequest β → HttpResponse α)
    (endpoint : String) (method : String) (body : Option β) :
    Except ClientError α := do
  let (email, token) ← get_auth_credentials env
  let credentials := b64encode (email ++ ":" ++ token)
  let headers := [("Authorization", "Basic " ++ credentials),
    ("Content-Type", "application/json")]
  let url := BASE_URL ++ endpoint
  let response ←
    if method = "GET" then
      Except.ok (transport ⟨"GET", url, headers, none⟩)
    else if method = "POST" then
      Except.ok (transport ⟨"POST", url, headers, body⟩)
    else
      Except.error (ClientError.valueError ("Unsupported HTTP method: " ++ method))
  if response.isOk then
    pure response.json
  else
    Except.error (ClientError.requestError response.status_code response.text)

/-- The two-column schema of the spec's worked example. -/
def exSchema : List ColumnSchema :=
  [⟨"Status", "VARCHAR", none⟩, ⟨"Count", "VARCHAR", none⟩]

/-- The spec's worked example result. -/
def exResult : QueryResult :=
  ⟨exSchema, [[.vStr "Open", .vStr "5"], [.vStr "Closed", .vStr "12"]], none⟩

/-- The worked example with the second row shorter than the schema. -/
def exResultShort : QueryResult :=
  ⟨exSchema, [[.vStr "Open", .vStr "5"], [.vStr "X"]], none⟩

/-- The worked example schema with no rows. -/
def exResultEmpty : QueryResult :=
  ⟨exSchema, [], none⟩

/-- An environment holding both credentials. -/
def exEnv : String → Option String := fun k =>
  if k = "CONNECT_AI_EMAIL" then some "user@example.com"
  else if k = "CONNECT_AI_TOKEN" then some "secret-token"
  else none

/-- An environment with neither credential set. -/
def exEnvMissing : String → Option String := fun _ => none

/-- A mock 500 response. -/
def exResponse500 : HttpResponse Nat :=
  ⟨500, "Internal Server Error", 0⟩

/-- A mock transport answering every request with the 500 response. -/
def exTransport500 : HttpRequest Nat → HttpResponse Nat := fun _ => exResponse500

theorem le_foldl_max (l : List Nat) (a : Nat) : a ≤ l.foldl max a := by
  induction l generalizing a with
  | nil => exact le_refl a
  | cons x xs ih => exact le_trans (le_max_left a x) (ih (max a x))

theorem mem_le_foldl_max {x : Nat} :
    ∀ {l : List Nat} (a : Nat), x ∈ l → x ≤ l.foldl max a := by
  intro l
  induction l with
  | nil => intro a h; cases h
  | cons y ys ih =>
    intro a h
    rcases List.mem_cons.mp h with rfl | h2
    · exact le_trans (le_max_right a x) (le_foldl_max ys (max a x))
    · exact ih (max a y) h2

theorem foldl_max_eq_or_mem : ∀ (l : List Nat) (a : Nat),
    l.foldl max a = a ∨ l.foldl max a ∈ l := by
  intro l
  induction l with
  | nil => intro a; exact Or.inl rfl
  | cons x xs ih =>
    intro a
    rw [List.foldl_cons]
    rcases ih (max a x) with h | h
    · rw [h]
      rcases max_choice a x with h2 | h2
      · exact Or.inl h2
      · rw [h2]
        exact Or.inr (List.mem_cons_self x xs)
    · exact Or.inr (List.mem_cons_of_mem x h)

theorem length_ljust (s : String) (w : Nat) : (ljust s w).length = max w s.length := by
  have hm : (String.mk (List.replicate (w - s.length) ' ')).length = w - s.length := by
    show (List.replicate (w - s.length) ' ').length = w - s.length
    exact List.length_replicate _ _
  simp only [ljust, String.length_append, hm]
  omega

theorem pyJoin_length_congr (sep : String) {l1 l2 : List String}
    (h : List.Forall₂ (fun a b => a.length = b.length) l1 l2) :
    (pyJoin sep l1).length = (pyJoin sep l2).length := by
  induction h with
  | nil => rfl
  | @cons a b t1 t2 h1 h2 ih =>
    cases h2 with
    | nil => exact h1
    | cons h3 h4 =>
      simp only [pyJoin, String.length_append]
      omega

theorem getD_map_lt {α β : Type _} (g : α → β) {l : List α} {i : Nat}
    (hi : i < l.length) (d : β) (d' : α) :
    (l.map g).getD i d = g (l.getD i d') := by
  rw [List.getD_eq_getElem (l.map g) d (by simpa using hi), List.getElem_map,
    List.getD_eq_getElem l d' hi]

theorem getD_enum_map {α β : Type _} (f : Nat × α → β) {l : List α} {i : Nat}
    (hi : i < l.length) (d : β) (d' : α) :
    (l.enum.map f).getD i d = f (i, l.getD i d') := by
  have he : i < l.enum.length := by simpa using hi
  rw [List.getD_eq_getElem (l.enum.map f) d (by simpa using hi), List.getElem_map,
    List.getElem_enum, List.getD_eq_getElem l d' hi]

theorem columnWidths_length (hs : List String) (rows : List (List Value)) :
    (columnWidths hs rows).length = hs.length := by
  simp [columnWidths]

theorem columnWidths_getD (hs : List String) (rows : List (List Value)) {i : Nat}
    (hi : i < hs.length) :
    (columnWidths hs rows).getD i 0 =
      max (hs.getD i "").length
        ((rows.map fun row => (cellStr row i).length).foldl max 0) := by
  unfold columnWidths
  exact getD_enum_map _ hi 0 ""

theorem header_le_width (hs : List String) (rows : List (List Value)) {i : Nat}
    (hi : i < hs.length) :
    (hs.getD i "").length ≤ (columnWidths hs rows).getD i 0 := by
  rw [columnWidths_getD hs rows hi]
  exact le_max_left _ _

theorem cell_le_width (hs : List String) (rows : List (List Value)) {i : Nat}
    (hi : i < hs.length) {row : List Value} (hrow : row ∈ rows) :
    (cellStr row i).length ≤ (columnWidths hs rows).getD i 0 := by
  rw [columnWidths_getD hs rows hi]
  exact le_trans
    (mem_le_foldl_max 0 (List.mem_map_of_mem (fun r => (cellStr r i).length) hrow))
    (le_max_right _ _)

theorem cellStr_of_ge {row : List Value} {i : Nat} (h : row.length ≤ i) :
    cellStr row i = "" := by
  unfold cellStr
  rw [List.get?_eq_none.mpr h]

theorem pyDictInsert_keys (d : List (String × Value)) (k : String) (v : Value) :
    (pyDictInsert d k v).map Prod.fst =
      if d.any (fun p => p.1 = k) then d.map Prod.fst else d.map Prod.fst ++ [k] := by
  unfold pyDictInsert
  cases hany : d.any (fun p => p.1 = k) with
  | false =>
    simp [hany]
  | true =>
    simp only [hany, if_true, List.map_map]
    refine List.map_congr_left ?_
    intro p _
    by_cases hp : p.1 = k
    · simp [Function.comp, hp]
    · simp [Function.comp, hp]

theorem pyDictInsert_keys_mem (d : List (String × Value)) (k : String) (v : Value)
    (n : String) :
    n ∈ (pyDictInsert d k v).map Prod.fst ↔ n ∈ d.map Prod.fst ∨ n = k := by
  rw [pyDictInsert_keys]
  cases hany : d.any (fun p => p.1 = k) with
  | false =>
    simp
  | true =>
    simp only [if_true]
    constructor
    · exact Or.inl
    · rintro (hn | rfl)
      · exact hn
      · rcases List.any_eq_true.mp hany with ⟨p, hp, he⟩
        have hpk : p.1 = n := of_decide_eq_true he
        exact hpk ▸ List.mem_map_of_mem Prod.fst hp

theorem pyDictInsert_keys_nodup {d : List (String × Value)} (k : String) (v : Value)
    (hd : (d.map Prod.fst).Nodup) :
    ((pyDictInsert d k v).map Prod.fst).Nodup := by
  rw [pyDictInsert_keys]
  cases hany : d.any (fun p => p.1 = k) with
  | true =>
    simpa using hd
  | false =>
    simp only [Bool.false_eq_true, if_false]
    rw [List.nodup_append]
    refine ⟨hd, List.nodup_singleton k, ?_⟩
    intro n hn hk
    rcases List.mem_singleton.mp hk with rfl
    rcases List.mem_map.mp hn with ⟨p, hp, hpk⟩
    have hall := List.any_eq_false.mp hany p hp
    exact absurd (decide_eq_true hpk) (by simpa using hall)

theorem pyDictInsert_pairs_sub {d : List (String × Value)} {k : String} {v : Value}
    {p : String × Value} (hp : p ∈ pyDictInsert d k v) :
    p ∈ d ∨ p = (k, v) := by
  unfold pyDictInsert at hp
  by_cases h : d.any (fun p => p.1 = k)
  · rw [if_pos h] at hp
    rcases List.mem_map.mp hp with ⟨q, hq, rfl⟩
    by_cases hqk : q.1 = k
    · rw [if_pos hqk]
      exact Or.inr rfl
    · rw [if_neg hqk]
      exact Or.inl hq
  · rw [if_neg h] at hp
    rcases List.mem_append.mp hp with hq | hq
    · exact Or.inl hq
    · exact Or.inr (List.mem_singleton.mp hq)

theorem foldl_pyDictInsert_keys_mem (n : String) :
    ∀ (l : List (String × Value)) (d : List (String × Value)),
      (n ∈ (l.foldl (fun d p => pyDictInsert d p.1 p.2) d).map Prod.fst ↔
        n ∈ d.map Prod.fst ∨ n ∈ l.map Prod.fst) := by
  intro l
  induction l with
  | nil => intro d; simp
  | cons q l ih =>
    intro d
    rw [List.foldl_cons, ih, pyDictInsert_keys_mem]
    simp only [List.map_cons, List.mem_cons]
    tauto

theorem foldl_pyDictInsert_keys_nodup :
    ∀ (l : List (String × Value)) {d : List (String × Value)},
      (d.map Prod.fst).Nodup →
      ((l.foldl (fun d p => pyDictInsert d p.1 p.2) d).map Prod.fst).Nodup := by
  intro l
  induction l with
  | nil => intro d hd; exact hd
  | cons q l ih =>
    intro d hd
    rw [List.foldl_cons]
    exact ih (pyDictInsert_keys_nodup q.1 q.2 hd)

theorem foldl_pyDictInsert_pairs_sub {p : String × Value} :
    ∀ (l : List (String × Value)) {d : List (String × Value)},
      p ∈ l.foldl (fun d q => pyDictInsert d q.1 q.2) d → p ∈ d ∨ p ∈ l := by
  intro l
  induction l with
  | nil => intro d h; exact Or.inl h
  | cons q l ih =>
    intro d h
    rw [List.foldl_cons] at h
    rcases ih h with h2 | h2
    · rcases pyDictInsert_pairs_sub h2 with h3 | h3
      · exact Or.inl h3
      · exact Or.inr (h3 ▸ List.mem_cons_self _ _)
    · exact Or.inr (List.mem_cons_of_mem q h2)

theorem pyDict_keys_mem (l : List (String × Value)) (n : String) :
    n ∈ (pyDict l).map Prod.fst ↔ n ∈ l.map Prod.fst := by
  unfold pyDict
  rw [foldl_pyDictInsert_keys_mem]
  simp

theorem pyDict_keys_nodup (l : List (String × Value)) :
    ((pyDict l).map Prod.fst).Nodup := by
  unfold pyDict
  exact foldl_pyDictInsert_keys_nodup l (by simp)

theorem pyDict_pairs_sub {l : List (String × Value)} {p : String × Value}
    (h : p ∈ pyDict l) : p ∈ l := by
  unfold pyDict at h
  rcases foldl_pyDictInsert_pairs_sub l h with h2 | h2
  · cases h2
  · exact h2

theorem foldl_pyDictInsert_nodup_append :
    ∀ (l : List (String × Value)) (d : List (String × Value)),
      (d.map Prod.fst).Nodup → (l.map Prod.fst).Nodup →
      (∀ n, n ∈ d.map Prod.fst → n ∉ l.map Prod.fst) →
      l.foldl (fun d p => pyDictInsert d p.1 p.2) d = d ++ l := by
  intro l
  induction l with
  | nil => intro d _ _ _; simp
  | cons q l ih =>
    intro d hd hl hdisj
    have hq : q.1 ∉ d.map Prod.fst := by
      intro hmem
      exact hdisj q.1 hmem (by simp)
    have hnoq : ¬(d.any fun p => p.1 = q.1) = true := by
      intro hany
      rcases List.any_eq_true.mp hany with ⟨p, hp, he⟩
      exact hq ((of_decide_eq_true he) ▸ List.mem_map_of_mem Prod.fst hp)
    have hins : pyDictInsert d q.1 q.2 = d ++ [q] := by
      unfold pyDictInsert
      rw [if_neg hnoq]
    rw [List.foldl_cons, hins]
    have hl2 : (l.map Prod.fst).Nodup := (List.map_cons Prod.fst q l ▸ hl).of_cons
    have hql : q.1 ∉ l.map Prod.fst := by
      have := List.map_cons Prod.fst q l ▸ hl
      exact (List.nodup_cons.mp this).1
    have hkeys : ((d ++ [q]).map Prod.fst).Nodup := by
      rw [List.map_append, List.nodup_append]
      refine ⟨hd, by simp, ?_⟩
      intro n hn hk
      rcases List.mem_singleton.mp (by simpa using hk) with rfl
      exact hq hn
    have hdisj2 : ∀ n, n ∈ (d ++ [q]).map Prod.fst → n ∉ l.map Prod.fst := by
      intro n hn
      rw [List.map_append, List.mem_append] at hn
      rcases hn with hn | hn
      · intro hmem
        exact hdisj n hn (List.map_cons Prod.fst q l ▸ List.mem_cons_of_mem q.1 hmem)
      · rcases List.mem_singleton.mp (by simpa using hn) with rfl
        exact hql
    rw [ih (d ++ [q]) hkeys hl2 hdisj2, List.append_assoc]
    rfl

theorem pyDict_eq_self {l : List (String × Value)} (h : (l.map Prod.fst).Nodup) :
    pyDict l = l := by
  unfold pyDict
  simpa using foldl_pyDictInsert_nodup_append l [] (by simp) h (by simp)

theorem zip_map_fst_eq_take :
    ∀ {α β : Type _} (l1 : List α) (l2 : List β),
      (l1.zip l2).map Prod.fst = l1.take l2.length := by
  intro α β l1
  induction l1 with
  | nil => intro l2; simp
  | cons a t ih =>
    intro l2
    cases l2 with
    | nil => simp
    | cons b s => simp [ih s]

theorem zip_take_self :
    ∀ {α β : Type _} (l1 : List α) (l2 : List β),
      l1.zip (l2.take l1.length) = l1.zip l2 := by
  intro α β l1
  induction l1 with
  | nil => intro l2; simp
  | cons a t ih =>
    intro l2
    cases l2 with
    | nil => simp
    | cons b s => simp [ih s]

theorem nodup_getD_not_mem_take :
    ∀ (l : List String), l.Nodup → ∀ (j m : Nat), m ≤ j → j < l.length →
      l.getD j "" ∉ l.take m := by
  intro l
  induction l with
  | nil => intro _ j m _ hj; exact absurd hj (by simp)
  | cons a t ih =>
    intro hnd j m hm hj
    cases m with
    | zero => simp
    | succ m' =>
      cases j with
      | zero => exact absurd hm (by omega)
      | succ j' =>
        simp only [List.take_succ_cons, List.getD_cons_succ, List.mem_cons]
        have hj' : j' < t.length := by simpa using hj
        rintro (he | hmem)
        · have hmt : t.getD j' "" ∈ t := by
            rw [List.getD_eq_getElem t "" hj']
            exact List.getElem_mem hj'
          exact (List.nodup_cons.mp hnd).1 (he ▸ hmt)
        · exact ih (List.nodup_cons.mp hnd).2 j' m' (by omega) hj' hmem

theorem cellStr_take {row : List Value} {n i : Nat} (h : i < n) :
    cellStr (row.take n) i = cellStr row i := by
  unfold cellStr
  rw [List.get?_eq_getElem?, List.get?_eq_getElem?, List.getElem?_take_of_lt h]

theorem compactRecords_getD (r : QueryResult) {i : Nat} (hi : i < r.rows.length) :
    (compactRecords r).getD i [] =
      pyDict ((headersOf r.schema).zip (r.rows.getD i [])) := by
  unfold compactRecords compactData
  exact getD_map_lt _ hi [] []

/-- Claim C1: for every `QueryResult` whose `rows` sequence is empty, the tabular
formatter returns exactly the string `"No results found."`, regardless of the
schema's contents, printing no header line. -/
theorem c1_empty_rows_sentinel (r : QueryResult) (h : r.rows = []) :
    format_query_results r false = "No results found." := by
  simp [format_query_results, h]

theorem c1_empty_rows_sentinel_witness :
    exResultEmpty.rows = [] ∧ exResultEmpty.schema ≠ [] ∧
      format_query_results exResultEmpty false = "No results found." :=
  ⟨rfl, by decide, c1_empty_rows_sentinel exResultEmpty rfl⟩

/-- Claim C2: for non-empty rows and any column index `i` of the schema, the
computed width is the maximum of the header text's length and the lengths of
the stringified row values at index `i`: it bounds the header, bounds every
row's cell, is attained by one of them, and a row with no value at index `i`
contributes the empty string (length 0) instead of failing. -/
theorem c2_column_width_is_max (r : QueryResult) (hrows : r.rows ≠ []) (i : Nat)
    (hi : i < (headersOf r.schema).length) :
    ((headersOf r.schema).getD i "").length
        ≤ (columnWidths (headersOf r.schema) r.rows).getD i 0
  ∧ (∀ row ∈ r.rows,
      (cellStr row i).length ≤ (columnWidths (headersOf r.schema) r.rows).getD i 0)
  ∧ ((columnWidths (headersOf r.schema) r.rows).getD i 0
        = ((headersOf r.schema).getD i "").length
      ∨ ∃ row ∈ r.rows,
          (columnWidths (headersOf r.schema) r.rows).getD i 0
            = (cellStr row i).length)
  ∧ (∀ row ∈ r.rows, row.length ≤ i → cellStr row i = "") := by
  refine ⟨header_le_width _ _ hi, fun row hr => cell_le_width _ _ hi hr, ?_,
    fun row _ h => cellStr_of_ge h⟩
  rw [columnWidths_getD _ _ hi]
  rcases max_choice ((headersOf r.schema).getD i "").length
      ((r.rows.map fun row => (cellStr row i).length).foldl max 0) with h | h
  · exact Or.inl h
  · rcases foldl_max_eq_or_mem (r.rows.map fun row => (cellStr row i).length) 0
        with h0 | hmem
    · left
      have hh := le_max_left ((headersOf r.schema).getD i "").length
        ((r.rows.map fun row => (cellStr row i).length).foldl max 0)
      omega
    · right
      rcases List.mem_map.mp hmem with ⟨row, hrow, he⟩
      exact ⟨row, hrow, by rw [h, ← he]⟩

theorem c2_column_width_is_max_witness :
    ((headersOf exResultShort.schema).getD 1 "").length
      ≤ (columnWidths (headersOf exResultShort.schema) exResultShort.rows).getD 1 0
  ∧ cellStr [Value.vStr "X"] 1 = "" := by
  have h := c2_column_width_is_max exResultShort (by decide) 1 (by decide)
  exact ⟨h.1, h.2.2.2 [Value.vStr "X"] (by decide) (by decide)⟩

/-- Claim C3 counterexample: on the spec's worked example the formatter does not
return the claimed string, because data-row cells are padded to the column
width even in the last column, leaving trailing spaces the claim omits. -/
theorem c3_claimed_string_counterexample :
    format_query_results exResult false ≠
      "Status | Count\n-------+------\nOpen   | 5\nClosed | 12" := by
  decide

/-- Claim C3 amended: the worked example renders with every cell of a data row
left-justified to its column width, so the rows carry trailing spaces:
header line, dash separator joined with `"-+-"`, then one padded line per
row, joined by newlines in that order. -/
theorem c3_example_table :
    format_query_results exResult false =
      "Status | Count\n-------+------\nOpen   | 5    \nClosed | 12   " := by
  decide

/-- Claim C5: with non-empty rows the tabular output is the newline join of the
header line, the separator and one line per row, and every data-row line has
exactly the header line's total character length (each cell padded to its
column width, cells joined with `" | "`). -/
theorem c5_lines_aligned (r : QueryResult) (hrows : r.rows ≠ []) :
    format_query_results r false =
      pyJoin "\n"
        (headerRow (headersOf r.schema) (columnWidths (headersOf r.schema) r.rows)
          :: separatorRow (columnWidths (headersOf r.schema) r.rows)
          :: r.rows.map
              (dataRow (headersOf r.schema).length
                (columnWidths (headersOf r.schema) r.rows)))
  ∧ ∀ row ∈ r.rows,
      (dataRow (headersOf r.schema).length (columnWidths (headersOf r.schema) r.rows)
          row).length
        = (headerRow (headersOf r.schema)
            (columnWidths (headersOf r.schema) r.rows)).length := by
  have hie : r.rows.isEmpty = false := by
    cases hr : r.rows with
    | nil => exact absurd hr hrows
    | cons a t => rfl
  constructor
  · simp [format_query_results, hie]
  · intro row hrow
    unfold dataRow headerRow
    apply pyJoin_length_congr
    rw [List.forall₂_iff_get]
    constructor
    · simp
    · intro k h1 h2
      have hk : k < (headersOf r.schema).length := by
        simpa using h1
      simp only [List.get_eq_getElem, List.getElem_map, List.getElem_range,
        List.getElem_enum]
      rw [length_ljust, length_ljust]
      have hc := cell_le_width (headersOf r.schema) r.rows hk hrow
      have hh := header_le_width (headersOf r.schema) r.rows hk
      rw [List.getD_eq_getElem _ "" hk] at hh
      omega

theorem c5_lines_aligned_witness :
    (dataRow (headersOf exResult.schema).length
        (columnWidths (headersOf exResult.schema) exResult.rows)
        [Value.vStr "Open", Value.vStr "5"]).length
      = (headerRow (headersOf exResult.schema)
          (columnWidths (headersOf exResult.schema) exResult.rows)).length :=
  (c5_lines_aligned exResult (by decide)).2 _ (by decide)

/-- Claim C6 counterexample: the claim locates the `"No results found."` sentinel
in the tabular renderer only, but `format_query_results` tests for empty rows
before branching on `compact`, so compact mode returns the sentinel too. -/
theorem c6_sentinel_in_compact_mode_counterexample :
    format_query_results exResultEmpty true = "No results found." := by
  decide

/-- Claim C6 amended: with empty rows the compact record reshaping of
`execute_query_compact` returns the empty sequence, while
`format_query_results` returns the `"No results found."` sentinel in both
its tabular and its compact mode, since the empty-rows guard precedes the
mode branch. -/
theorem c6_compact_empty (r : QueryResult) (h : r.rows = []) :
    compactRecords r = []
  ∧ format_query_results r false = "No results found."
  ∧ format_query_results r true = "No results found." := by
  refine ⟨?_, ?_, ?_⟩ <;> simp [compactRecords, compactData, format_query_results, h]

theorem c6_compact_empty_witness :
    compactRecords exResultEmpty = []
  ∧ format_query_results exResultEmpty false = "No results found."
  ∧ format_query_results exResultEmpty true = "No results found." :=
  c6_compact_empty exResultEmpty rfl

/-- Claim C4: the compact formatter yields one record per row in row order; each
record's pairs come from positionally zipping schema-ordered column names
with the row's values (exactly the zip when the names are distinct); for a
full-length row the key set is the schema's column names exactly once each;
for a shorter row the names at indices beyond the row's length are absent
rather than paired with a null. -/
theorem c4_compact_records_semantics (r : QueryResult) (i : Nat)
    (hi : i < r.rows.length) :
    (compactRecords r).length = r.rows.length
  ∧ (∀ p ∈ (compactRecords r).getD i [],
      p ∈ (headersOf r.schema).zip (r.rows.getD i []))
  ∧ ((headersOf r.schema).Nodup →
      (compactRecords r).getD i [] = (headersOf r.schema).zip (r.rows.getD i []))
  ∧ ((r.rows.getD i []).length = r.schema.length →
      ((((compactRecords r).getD i []).map Prod.fst).Nodup
        ∧ ∀ n, n ∈ ((compactRecords r).getD i []).map Prod.fst
            ↔ n ∈ headersOf r.schema))
  ∧ ((headersOf r.schema).Nodup →
      ∀ j, (r.rows.getD i []).length ≤ j → j < (headersOf r.schema).length →
        (headersOf r.schema).getD j ""
          ∉ ((compactRecords r).getD i []).map Prod.fst) := by
  have hrec := compactRecords_getD r hi
  have hlen : (headersOf r.schema).length = r.schema.length := by
    simp [headersOf]
  refine ⟨by simp [compactRecords, compactData], ?_, ?_, ?_, ?_⟩
  · intro p hp
    rw [hrec] at hp
    exact pyDict_pairs_sub hp
  · intro hnd
    rw [hrec]
    apply pyDict_eq_self
    rw [zip_map_fst_eq_take]
    exact List.Nodup.sublist (List.take_sublist _ _) hnd
  · intro hfull
    constructor
    · rw [hrec]
      exact pyDict_keys_nodup _
    · intro n
      rw [hrec, pyDict_keys_mem, zip_map_fst_eq_take, hfull, ← hlen,
        List.take_length]
  · intro hnd j hj1 hj2
    rw [hrec, pyDict_eq_self
      (by rw [zip_map_fst_eq_take]
          exact List.Nodup.sublist (List.take_sublist _ _) hnd),
      zip_map_fst_eq_take]
    exact nodup_getD_not_mem_take (headersOf r.schema) hnd j _ hj1 hj2

theorem c4_compact_records_semantics_witness :
    (compactRecords exResultShort).length = 2
  ∧ (∀ n, n ∈ ((compactRecords exResultShort).getD 0 []).map Prod.fst
        ↔ n ∈ headersOf exResultShort.schema)
  ∧ "Count" ∉ ((compactRecords exResultShort).getD 1 []).map Prod.fst := by
  refine ⟨(c4_compact_records_semantics exResultShort 0 (by decide)).1,
    fun n =>
      ((c4_compact_records_semantics exResultShort 0 (by decide)).2.2.2.1
        (by decide)).2 n, ?_⟩
  have h := (c4_compact_records_semantics exResultShort 1 (by decide)).2.2.2.2
    (by decide) 1 (by decide) (by decide)
  have he : (headersOf exResultShort.schema).getD 1 "" = "Count" := by decide
  exact he ▸ h

/-- Claim C10: values of a row beyond the schema length are silently ignored by
both formatting modes: the formatter's output, in compact and in tabular
mode, and the compact record reshaping are unchanged when every row is
truncated to the schema length. -/
theorem c10_extra_values_ignored (schema : List ColumnSchema)
    (rows : List (List Value)) (a : Option Int) (compact : Bool) :
    format_query_results ⟨schema, rows, a⟩ compact
      = format_query_results
          ⟨schema, rows.map (fun row => row.take schema.length), a⟩ compact
  ∧ compactRecords ⟨schema, rows, a⟩
      = compactRecords
          ⟨schema, rows.map (fun row => row.take schema.length), a⟩ := by
  have hlen : (headersOf schema).length = schema.length := by
    simp [headersOf]
  have hcd : compactData (headersOf schema)
        (rows.map fun row => row.take schema.length)
      = compactData (headersOf schema) rows := by
    unfold compactData
    rw [List.map_map]
    refine List.map_congr_left ?_
    intro row _
    show pyDict ((headersOf schema).zip (row.take schema.length)) = _
    rw [← hlen, zip_take_self]
  have hcw : columnWidths (headersOf schema)
        (rows.map fun row => row.take schema.length)
      = columnWidths (headersOf schema) rows := by
    unfold columnWidths
    refine List.map_congr_left ?_
    intro p hp
    have hp1 : p.1 < (headersOf schema).length := by
      have := List.mem_enum_iff_getElem?.mp hp
      exact (List.getElem?_eq_some.mp this).1
    rw [List.map_map]
    have hm : (rows.map
          ((fun row => (cellStr row p.1).length) ∘ fun row => row.take schema.length))
        = rows.map fun row => (cellStr row p.1).length := by
      refine List.map_congr_left ?_
      intro row _
      show (cellStr (row.take schema.length) p.1).length = _
      rw [cellStr_take (hlen ▸ hp1)]
    rw [hm]
  have hdr : ∀ row, dataRow (headersOf schema).length
        (columnWidths (headersOf schema) rows) (row.take schema.length)
      = dataRow (headersOf schema).length
        (columnWidths (headersOf schema) rows) row := by
    intro row
    unfold dataRow
    congr 1
    refine List.map_congr_left ?_
    intro j hj
    rw [cellStr_take (hlen ▸ List.mem_range.mp hj)]
  refine ⟨?_, ?_⟩
  · cases hrw : rows with
    | nil =>
      subst hrw
      rfl
    | cons row0 rest =>
      subst hrw
      unfold format_query_results
      simp only [List.map_cons, List.isEmpty_cons, Bool.false_eq_true, if_false]
      have hml : (row0.take schema.length ::
            rest.map fun row => row.take schema.length)
          = ((row0 :: rest).map fun row => row.take schema.length) := rfl
      cases compact with
      | true =>
        simp only [if_true]
        rw [hml, hcd]
      | false =>
        simp only [Bool.false_eq_true, if_false]
        rw [hml, hcw, List.map_map]
        congr 2
        congr 1
        congr 1
        · exact (hdr row0).symm
        · refine List.map_congr_left ?_
          intro row _
          exact (hdr row).symm
  · unfold compactRecords
    exact hcd.symm

theorem bind_ok_reduce {ε α β : Type _} (a : α) (f : α → Except ε β) :
    (do let x ← (Except.ok a : Except ε α); f x) = f a := rfl

theorem bind_error_reduce {ε α β : Type _} (err : ε) (f : α → Except ε β) :
    (do let x ← (Except.error err : Except ε α); f x) = Except.error err := rfl

theorem map_ok_reduce {ε α β : Type _} (f : α → β) (a : α) :
    (f <$> (Except.ok a : Except ε α)) = Except.ok (f a) := rfl

theorem pure_ok {ε α : Type _} (a : α) :
    (pure a : Except ε α) = Except.ok a := rfl

theorem mapExcept_ok {α β ε : Type _} {f : α → Except ε β} (g : α → β) :
    ∀ {l : List α}, (∀ a ∈ l, f a = Except.ok (g a)) →
      mapExcept f l = Except.ok (l.map g) := by
  intro l
  induction l with
  | nil => intro _; rfl
  | cons a t ih =>
    intro h
    have ha := h a (List.mem_cons_self a t)
    have ht := ih fun x hx => h x (List.mem_cons_of_mem a hx)
    simp [mapExcept, ha, ht, bind_ok_reduce, pure_ok]

theorem pyMax_ok {l : List Nat} (h : l ≠ []) :
    pyMax l = Except.ok (l.foldl max 0) := by
  cases l with
  | nil => exact absurd rfl h
  | cons x xs => simp [pyMax, List.foldl_cons, Nat.zero_max]

theorem pyIndex_ok {l : List Nat} {i : Nat} (h : i < l.length) :
    pyIndex l i = Except.ok (l.getD i 0) := by
  unfold pyIndex
  rw [List.getD_eq_getD_get?]
  cases hg : l.get? i with
  | none =>
    have := List.get?_eq_none.mp hg
    omega
  | some x => rfl

theorem columnWidthsChecked_ok (hs : List String) (rows : List (List Value))
    (hrows : rows ≠ []) :
    columnWidthsChecked hs rows = Except.ok (columnWidths hs rows) := by
  unfold columnWidthsChecked columnWidths
  refine mapExcept_ok _ ?_
  intro p _
  have hne : rows.map (fun row => (cellStr row p.1).length) ≠ [] := by
    cases rows with
    | nil => exact absurd rfl hrows
    | cons a t => simp
  rw [pyMax_ok hne]
  rfl

theorem headerRowChecked_ok (hs : List String) (widths : List Nat)
    (hw : widths.length = hs.length) :
    headerRowChecked hs widths = Except.ok (headerRow hs widths) := by
  unfold headerRowChecked headerRow
  rw [mapExcept_ok (fun p => ljust p.2 (widths.getD p.1 0)) ?_]
  · rfl
  · intro p hp
    have hp1 : p.1 < widths.length := by
      rw [hw]
      have := List.mem_enum_iff_getElem?.mp hp
      exact (List.getElem?_eq_some.mp this).1
    rw [pyIndex_ok hp1]
    rfl

theorem dataRowChecked_ok (ncols : Nat) {widths : List Nat} (row : List Value)
    (hw : ncols ≤ widths.length) :
    dataRowChecked ncols widths row = Except.ok (dataRow ncols widths row) := by
  unfold dataRowChecked dataRow
  rw [mapExcept_ok (fun i => ljust (cellStr row i) (widths.getD i 0)) ?_]
  · rfl
  · intro i hi
    have hi1 : i < widths.length := lt_of_lt_of_le (List.mem_range.mp hi) hw
    rw [pyIndex_ok hi1]
    rfl

/-- Claim C7: the formatter is total.  The checked embedding keeps Python's own
partial operations (`max` over a possibly empty generator, the
`column_widths[i]` indexing) as fallible steps, and for every well-formed
`QueryResult` — any schema, empty rows, rows shorter than the schema — and
either mode it succeeds with exactly the total formatter's output, raising
no error of its own. -/
theorem c7_formatter_total (r : QueryResult) (compact : Bool) :
    format_query_results_checked r compact
      = Except.ok (format_query_results r compact) := by
  cases hr : r.rows with
  | nil =>
    unfold format_query_results_checked format_query_results
    rw [hr]
    rfl
  | cons row0 rest =>
    unfold format_query_results_checked format_query_results
    rw [hr]
    simp only [List.isEmpty_cons, Bool.false_eq_true, if_false]
    cases compact with
    | true => rfl
    | false =>
      have h1 := columnWidthsChecked_ok (headersOf r.schema)
        (row0 :: rest) (by simp)
      have h2 := headerRowChecked_ok (headersOf r.schema)
        (columnWidths (headersOf r.schema) (row0 :: rest))
        (columnWidths_length _ _)
      have h3 : mapExcept
            (dataRowChecked (headersOf r.schema).length
              (columnWidths (headersOf r.schema) (row0 :: rest)))
            (row0 :: rest)
          = Except.ok ((row0 :: rest).map
              (dataRow (headersOf r.schema).length
                (columnWidths (headersOf r.schema) (row0 :: rest)))) :=
        mapExcept_ok _ fun row _ =>
          dataRowChecked_ok _ row (le_of_eq (columnWidths_length _ _).symm)
      simp [h1, h2, h3, bind_ok_reduce, map_ok_reduce, pure_ok]

/-- Claim C8: when the transport answers with a non-success HTTP status (400 or
above, e.g. 500), `make_request` fails with exactly the request error
carrying that response's status code and body — no other error is
raised. -/
theorem c8_non_success_request_error {α β : Type} (env : String → Option String)
    (e t : String) (hcred : get_auth_credentials env = Except.ok (e, t))
    (resp : HttpResponse α) (transport : HttpRequest β → HttpResponse α)
    (htrans : ∀ req, transport req = resp) (hstatus : 400 ≤ resp.status_code)
    (endpoint method : String) (body : Option β)
    (hmethod : method = "GET" ∨ method = "POST") :
    make_request env transport endpoint method body
      = Except.error (ClientError.requestError resp.status_code resp.text) := by
  have hok : resp.isOk = false := by
    unfold HttpResponse.isOk
    simp [Nat.not_lt.mpr hstatus]
  unfold make_request
  rw [hcred]
  rcases hmethod with rfl | rfl
  · simp [htrans, hok, bind_ok_reduce, pure_ok]
  · simp [htrans, hok, bind_ok_reduce, pure_ok]

theorem c8_non_success_request_error_witness :
    make_request exEnv exTransport500 "/query" "POST" (some 0)
      = Except.error (ClientError.requestError 500 "Internal Server Error") :=
  c8_non_success_request_error exEnv "user@example.com" "secret-token" rfl
    exResponse500 exTransport500 (fun _ => rfl) (by decide) "/query" "POST" (some 0)
    (Or.inr rfl)

/-- Claim C9: when either credential is absent from the environment, every
network operation fails with the configuration error, and the outcome is
the same for every transport — no request is issued. -/
theorem c9_missing_credentials {α β : Type} (env : String → Option String)
    (hmiss : env "CONNECT_AI_EMAIL" = none ∨ env "CONNECT_AI_TOKEN" = none)
    (endpoint method : String) (body : Option β) :
    ∀ transport : HttpRequest β → HttpResponse α,
      make_request env transport endpoint method body
        = Except.error (ClientError.configurationError
            "CONNECT_AI_EMAIL and CONNECT_AI_TOKEN environment variables must be set") := by
  intro transport
  have hcred : get_auth_credentials env
      = Except.error (ClientError.configurationError
          "CONNECT_AI_EMAIL and CONNECT_AI_TOKEN environment variables must be set") := by
    unfold get_auth_credentials
    rcases hmiss with h | h
    · rw [h]
      simp [pyTruthyStr]
    · rw [h]
      simp [pyTruthyStr]
  unfold make_request
  rw [hcred]
  rfl

theorem c9_missing_credentials_witness :
    make_request exEnvMissing exTransport500 "/catalogs" "GET" (none : Option Nat)
      = Except.error (ClientError.configurationError
          "CONNECT_AI_EMAIL and CONNECT_AI_TOKEN environment variables must be set") :=
  c9_missing_credentials exEnvMissing (Or.inl rfl) "/catalogs" "GET" none
    exTransport500

end ConnectAI
